import Mathlib

/-!
Verification of the vengeful-vineyard presentation layer.

This file gives a shallow embedding, in Lean 4, of the client-side logic of
the repository: the svelte user stores (search filtering, localStorage
persistence), and the React group-members modal (sorting, permission gating,
mutation success/error handlers) together with the `Layout` bearer-header
logic.  JavaScript strings become `String`, JS arrays become `List`,
`null`/`undefined` become `Option`, JS numbers occurring in the data model
become `Int`, and the browser `localStorage` becomes an association list.
Theorems about the claims of the specification follow the definitions.
-/

namespace Vineyard

/-! ## Data model of the svelte frontend

Reconstructed from the sample `defaultusers` data left in comments in the
stores file (`src/unnamed/part_001`) and the `types.ts` mirror of the API.
-/

/-- A punishment record as stored in the svelte `users` store. -/
structure Punishment where
  punishment_type : Int
  reason : String
  amount : Int
  punishment_id : Int
  created_time : String
  verified_time : Option String
  verified_by : Option Int
deriving DecidableEq

/-- A user record as stored in the svelte `users` store. -/
structure User where
  user_id : Int
  first_name : String
  last_name : String
  email : String
  active : Bool
  punishments : List Punishment
deriving DecidableEq

/-- A punishment type, as in `types.ts`. -/
structure PunishmentType where
  name : String
  value : Int
  logo_url : String
  punishment_type_id : Int
deriving DecidableEq

/-! ## The svelte stores (`src/unnamed/part_001`) -/

/-- Contiguous-sublist test on character lists; `charsIncludes hay sub` is
true when `sub` occurs inside `hay`. -/
def charsIncludes (hay sub : List Char) : Bool :=
  match hay with
  | [] => sub.isEmpty
  | _ :: t => sub.isPrefixOf hay || charsIncludes t sub

/-- Model of JavaScript `String.prototype.includes`: substring test. -/
def jsIncludes (s search : String) : Bool :=
  charsIncludes s.data search.data

/-- Model of JavaScript `String.prototype.toLocaleLowerCase` (the default
locale lowercases character by character). -/
def toLocaleLowerCase (s : String) : String := String.mk (s.data.map Char.toLower)

/-- The helper `hasCommonElement` from the stores file. -/
def hasCommonElement [DecidableEq α] (arr1 arr2 : List α) : Bool :=
  arr1.any (fun item => arr2.contains item)

/-- The derived store `filteredUsers` from the stores file.  Its dependency
array is `[term, users, showInactive, filterOnPunishments]`, so the value is
a function of those four stores; the body first filters on the
active/showInactive flag (in JS an object is truthy, so when `$showInactive`
is set every user passes) and then keeps users whose lowercased first or
last name includes the raw search term. -/
def filteredUsers (term : String) (users : List User) (showInactive : Bool)
    (filterOnPunishments : List PunishmentType) : List User :=
  (users.filter (fun user => if showInactive then true else user.active)).filter
    (fun user =>
      jsIncludes (toLocaleLowerCase user.first_name) term ||
      jsIncludes (toLocaleLowerCase user.last_name) term)

/-- The membership condition asserted by the specification for
`filteredUsers`: active or `showInactive`, and first or last name contains
the search term as a case-insensitive substring. -/
def specMatchC1 (term : String) (showInactive : Bool) (user : User) : Bool :=
  (showInactive || user.active) &&
    (jsIncludes (toLocaleLowerCase user.first_name) (toLocaleLowerCase term) ||
     jsIncludes (toLocaleLowerCase user.last_name) (toLocaleLowerCase term))

/-- A sample active user whose name contains capital letters. -/
def annaUser : User :=
  { user_id := 1, first_name := "Anna", last_name := "Nordmann",
    email := "anna@example.com", active := true, punishments := [] }

/-! ## localStorage persistence of the `users` store

The stores file initializes the store from
`JSON.parse(localStorage.getItem("users"))` and persists every written
value through the subscriber `localStorage.users = JSON.stringify(value)`.
`JSON.stringify`/`JSON.parse` are modelled below for exactly the values the
store holds: `null` (represented by `none`) or an array of `User` records.
The encoder escapes `"` and `\`; the escaping of control characters is
elided, which changes neither the round-trip behaviour nor any claim. -/

/-- Decimal digit test on characters. -/
def isDigitChar (c : Char) : Bool := 48 ≤ c.toNat && c.toNat ≤ 57

/-- The character of a decimal digit. -/
def jsonDigit (d : Nat) : Char := Char.ofNat (48 + d)

/-- Decimal notation of a natural number. -/
def encNat (n : Nat) : List Char :=
  if n = 0 then ['0'] else (Nat.digits 10 n).reverse.map jsonDigit

/-- JSON text of an integer. -/
def encInt : Int → List Char
  | .ofNat n => encNat n
  | .negSucc n => '-' :: encNat (n + 1)

/-- JSON escaping of one character. -/
def escapeChar (c : Char) : List Char :=
  if c = '"' then ['\\', '"'] else if c = '\\' then ['\\', '\\'] else [c]

/-- JSON escaping of a character sequence. -/
def escapeChars : List Char → List Char
  | [] => []
  | c :: cs => escapeChar c ++ escapeChars cs

/-- JSON text of a string: quoted and escaped. -/
def encString (s : String) : List Char :=
  '"' :: (escapeChars s.data ++ ['"'])

/-- JSON text of a boolean. -/
def encBool (b : Bool) : List Char :=
  if b then ['t', 'r', 'u', 'e'] else ['f', 'a', 'l', 's', 'e']

/-- The JSON literal `null`. -/
def nullChars : List Char := ['n', 'u', 'l', 'l']

/-- JSON text of a nullable string. -/
def encOptString : Option String → List Char
  | none => nullChars
  | some s => encString s

/-- JSON text of a nullable integer. -/
def encOptInt : Option Int → List Char
  | none => nullChars
  | some i => encInt i

/-- JSON text of an object key followed by the separating colon. -/
def keyChars (k : String) : List Char := encString k ++ [':']

/-- JSON texts of array elements joined by commas. -/
def encListSep (enc : α → List Char) : List α → List Char
  | [] => []
  | [x] => enc x
  | x :: xs => enc x ++ ',' :: encListSep enc xs

/-- JSON text of an array. -/
def encList (enc : α → List Char) (l : List α) : List Char :=
  '[' :: (encListSep enc l ++ [']'])

/-- `JSON.stringify` of a punishment record, keys in insertion order. -/
def encPunishment (p : Punishment) : List Char :=
  '\x7b' :: (keyChars "punishment_type" ++ encInt p.punishment_type
    ++ ',' :: keyChars "reason" ++ encString p.reason
    ++ ',' :: keyChars "amount" ++ encInt p.amount
    ++ ',' :: keyChars "punishment_id" ++ encInt p.punishment_id
    ++ ',' :: keyChars "created_time" ++ encString p.created_time
    ++ ',' :: keyChars "verified_time" ++ encOptString p.verified_time
    ++ ',' :: keyChars "verified_by" ++ encOptInt p.verified_by
    ++ ['\x7d'])

/-- `JSON.stringify` of a user record, keys in insertion order. -/
def encUser (u : User) : List Char :=
  '\x7b' :: (keyChars "user_id" ++ encInt u.user_id
    ++ ',' :: keyChars "first_name" ++ encString u.first_name
    ++ ',' :: keyChars "last_name" ++ encString u.last_name
    ++ ',' :: keyChars "email" ++ encString u.email
    ++ ',' :: keyChars "active" ++ encBool u.active
    ++ ',' :: keyChars "punishments" ++ encList encPunishment u.punishments
    ++ ['\x7d'])

/-- Consume one expected character. -/
def expectChar (c : Char) : List Char → Option (List Char)
  | [] => none
  | d :: cs => if d = c then some cs else none

/-- Consume an expected literal character sequence. -/
def parseLit : List Char → List Char → Option (List Char)
  | [], cs => some cs
  | _ :: _, [] => none
  | l :: ls, c :: cs => if c = l then parseLit ls cs else none

/-- Consume an object key and its colon. -/
def parseKey (k : String) (cs : List Char) : Option (List Char) :=
  parseLit (keyChars k) cs

/-- Consume a maximal run of decimal digits, accumulating their value. -/
def parseNatAux : List Char → Nat → Nat × List Char
  | [], acc => (acc, [])
  | c :: cs, acc =>
    if isDigitChar c then parseNatAux cs (acc * 10 + (c.toNat - 48)) else (acc, c :: cs)

/-- Parse a natural number (at least one digit). -/
def parseNat : List Char → Option (Nat × List Char)
  | [] => none
  | c :: cs => if isDigitChar c then some (parseNatAux (c :: cs) 0) else none

/-- Parse a JSON integer (optional minus sign). -/
def parseInt (cs : List Char) : Option (Int × List Char) :=
  match cs with
  | [] => none
  | c :: cs' =>
    if c = '-' then
      match parseNat cs' with
      | some (n, rest) => some (-(n : Int), rest)
      | none => none
    else
      match parseNat (c :: cs') with
      | some (n, rest) => some ((n : Int), rest)
      | none => none

/-- Parse the body of a JSON string up to the closing quote. -/
def parseStrBody : List Char → Option (List Char × List Char)
  | [] => none
  | c :: cs =>
    if c = '"' then some ([], cs)
    else if c = '\\' then
      match cs with
      | [] => none
      | d :: cs' =>
        if d = '"' ∨ d = '\\' then
          match parseStrBody cs' with
          | some (s, rest) => some (d :: s, rest)
          | none => none
        else none
    else
      match parseStrBody cs with
      | some (s, rest) => some (c :: s, rest)
      | none => none

/-- Parse a JSON string. -/
def parseString (cs : List Char) : Option (String × List Char) :=
  match cs with
  | [] => none
  | c :: cs' =>
    if c = '"' then
      match parseStrBody cs' with
      | some (s, rest) => some (String.mk s, rest)
      | none => none
    else none

/-- Parse a JSON boolean. -/
def parseBool (cs : List Char) : Option (Bool × List Char) :=
  match cs with
  | [] => none
  | c :: cs' =>
    if c = 't' then
      match parseLit ['r', 'u', 'e'] cs' with
      | some rest => some (true, rest)
      | none => none
    else if c = 'f' then
      match parseLit ['a', 'l', 's', 'e'] cs' with
      | some rest => some (false, rest)
      | none => none
    else none

/-- Parse a nullable JSON string. -/
def parseOptString (cs : List Char) : Option (Option String × List Char) :=
  match parseLit nullChars cs with
  | some rest => some (none, rest)
  | none =>
    match parseString cs with
    | some (s, rest) => some (some s, rest)
    | none => none

/-- Parse a nullable JSON integer. -/
def parseOptInt (cs : List Char) : Option (Option Int × List Char) :=
  match parseLit nullChars cs with
  | some rest => some (none, rest)
  | none =>
    match parseInt cs with
    | some (i, rest) => some (some i, rest)
    | none => none

/-- Parse the first object field (no leading comma) as an integer. -/
def parseIntFieldFirst (k : String) (cs : List Char) : Option (Int × List Char) :=
  (parseKey k cs).bind parseInt

/-- Parse a subsequent object field (with leading comma) as an integer. -/
def parseIntField (k : String) (cs : List Char) : Option (Int × List Char) :=
  (expectChar ',' cs).bind fun cs1 => (parseKey k cs1).bind parseInt

/-- Parse a subsequent object field as a string. -/
def parseStringField (k : String) (cs : List Char) : Option (String × List Char) :=
  (expectChar ',' cs).bind fun cs1 => (parseKey k cs1).bind parseString

/-- Parse a subsequent object field as a boolean. -/
def parseBoolField (k : String) (cs : List Char) : Option (Bool × List Char) :=
  (expectChar ',' cs).bind fun cs1 => (parseKey k cs1).bind parseBool

/-- Parse a subsequent object field as a nullable string. -/
def parseOptStringField (k : String) (cs : List Char) : Option (Option String × List Char) :=
  (expectChar ',' cs).bind fun cs1 => (parseKey k cs1).bind parseOptString

/-- Parse a subsequent object field as a nullable integer. -/
def parseOptIntField (k : String) (cs : List Char) : Option (Option Int × List Char) :=
  (expectChar ',' cs).bind fun cs1 => (parseKey k cs1).bind parseOptInt

/-- Parse a punishment object. -/
def parsePunishment (cs : List Char) : Option (Punishment × List Char) :=
  (expectChar '\x7b' cs).bind fun cs0 =>
  (parseIntFieldFirst "punishment_type" cs0).bind fun r1 =>
  (parseStringField "reason" r1.2).bind fun r2 =>
  (parseIntField "amount" r2.2).bind fun r3 =>
  (parseIntField "punishment_id" r3.2).bind fun r4 =>
  (parseStringField "created_time" r4.2).bind fun r5 =>
  (parseOptStringField "verified_time" r5.2).bind fun r6 =>
  (parseOptIntField "verified_by" r6.2).bind fun r7 =>
  (expectChar '\x7d' r7.2).bind fun cs1 =>
  some ({ punishment_type := r1.1, reason := r2.1, amount := r3.1, punishment_id := r4.1,
          created_time := r5.1, verified_time := r6.1, verified_by := r7.1 }, cs1)

/-- Parse one or more comma-separated elements with `p`; the fuel bounds
the number of elements. -/
def parseListAux (p : List Char → Option (α × List Char)) :
    Nat → List Char → Option (List α × List Char)
  | 0, _ => none
  | fuel + 1, cs => do
    let (x, cs') ← p cs
    match cs' with
    | [] => some ([x], [])
    | c :: cs'' =>
      if c = ',' then do
        let (xs, rest) ← parseListAux p fuel cs''
        some (x :: xs, rest)
      else some ([x], c :: cs'')

/-- Parse a JSON array of elements parsed by `p`. -/
def parseList (p : List Char → Option (α × List Char)) (fuel : Nat) (cs : List Char) :
    Option (List α × List Char) :=
  match cs with
  | [] => none
  | c :: cs' =>
    if c = '[' then
      match cs' with
      | [] => none
      | d :: cs'' =>
        if d = ']' then some ([], cs'')
        else do
          let (xs, cs3) ← parseListAux p fuel (d :: cs'')
          let rest ← expectChar ']' cs3
          some (xs, rest)
    else none

/-- Parse a subsequent object field as an array of punishments. -/
def parsePunishmentsField (k : String) (fuel : Nat) (cs : List Char) :
    Option (List Punishment × List Char) :=
  (expectChar ',' cs).bind fun cs1 =>
    (parseKey k cs1).bind fun cs2 => parseList parsePunishment fuel cs2

/-- Parse a user object; the fuel bounds the punishments array. -/
def parseUser (fuel : Nat) (cs : List Char) : Option (User × List Char) :=
  (expectChar '\x7b' cs).bind fun cs0 =>
  (parseIntFieldFirst "user_id" cs0).bind fun r1 =>
  (parseStringField "first_name" r1.2).bind fun r2 =>
  (parseStringField "last_name" r2.2).bind fun r3 =>
  (parseStringField "email" r3.2).bind fun r4 =>
  (parseBoolField "active" r4.2).bind fun r5 =>
  (parsePunishmentsField "punishments" fuel r5.2).bind fun r6 =>
  (expectChar '\x7d' r6.2).bind fun cs1 =>
  some ({ user_id := r1.1, first_name := r2.1, last_name := r3.1, email := r4.1,
          active := r5.1, punishments := r6.1 }, cs1)

/-- `JSON.stringify` of a value of the `users` store (`null` or an array of
users). -/
def stringifyUsersValue : Option (List User) → String
  | none => "null"
  | some us => String.mk (encList encUser us)

/-- `JSON.parse` of a `users` entry, read back as a store value; `none`
models a parse failure (`JSON.parse` throwing). -/
def parseUsersValue (s : String) : Option (Option (List User)) :=
  if s = "null" then some none
  else
    match parseList (parseUser s.length) s.length s.data with
    | some (us, []) => some (some us)
    | _ => none

/-- Guard used by the number round-trip lemmas: the remaining input does
not begin with a digit, so the maximal-munch number parser stops. -/
def noLeadingDigit : List Char → Bool
  | [] => true
  | c :: _ => !isDigitChar c

/-- The browser `localStorage`, an association list from keys to strings
(latest write read first). -/
abbrev Storage := List (String × String)

/-- `localStorage.getItem`. -/
def getItem (storage : Storage) (k : String) : Option String :=
  (List.find? (fun kv => kv.1 = k) storage).map (fun kv => kv.2)

/-- Assignment `localStorage[k] = v`. -/
def setItem (storage : Storage) (k v : String) : Storage := (k, v) :: storage

/-- The `users` store together with the backing `localStorage`. -/
structure UsersStoreState where
  value : Option (List User)
  storage : Storage

/-- A write to the `users` store: the value is stored and the subscriber
persists `JSON.stringify(value)` under the key `"users"`. -/
def usersSet (st : UsersStoreState) (v : Option (List User)) : UsersStoreState :=
  { value := v, storage := setItem st.storage "users" (stringifyUsersValue v) }

/-- Store initialization:
`writable(JSON.parse(localStorage.getItem("users")))`.  A missing key gives
the JS `null` (`JSON.parse(null)` is `null`), hence `some none`; an
unparseable entry throws, hence `none`. -/
def usersInit (storage : Storage) : Option (Option (List User)) :=
  match getItem storage "users" with
  | none => some none
  | some s => parseUsersValue s

/-! ## Data model of the React frontend (`helpers/types.ts`, zod schemas) -/

namespace App

/-- A reaction on a punishment (`PunishmentReactionSchema`). -/
structure PunishmentReaction where
  punishment_reaction_id : String
  punishment_id : String
  created_by : String
  created_at : String
  emoji : String
deriving DecidableEq

/-- A punishment (`PunishmentSchema`). -/
structure Punishment where
  punishment_type_id : String
  group_id : Option String
  reason : String
  reason_hidden : Bool
  amount : Int
  punishment_id : String
  created_at : String
  created_by : String
  created_by_name : String
  paid : Bool
  paid_at : Option String
  marked_paid_by : Option String
  reactions : List PunishmentReaction
deriving DecidableEq

/-- A user (`UserSchema`). -/
structure User where
  ow_user_id : Int
  user_id : String
  first_name : String
  last_name : String
  email : String
deriving DecidableEq

/-- A group member (`GroupUserSchema`, extending `UserSchema`). -/
structure GroupUser where
  ow_user_id : Int
  user_id : String
  first_name : String
  last_name : String
  email : String
  group_id : String
  ow_group_user_id : Option Int
  punishments : List Punishment
  active : Bool
  permissions : List String
deriving DecidableEq

/-- A punishment type (`PunishmentTypeSchema`). -/
structure PunishmentTypeA where
  name : String
  value : Int
  emoji : String
  punishment_type_id : String
deriving DecidableEq

/-- The group permission table: a record mapping role identifiers to the
list of capabilities that role grants (`GroupPermissions`). -/
abbrev GroupPermissions := List (String × List String)

/-- A group (`GroupSchema`); JS records become association lists. -/
structure Group where
  name : String
  name_short : String
  rules : String
  image : String
  ow_group_id : Option Int
  group_id : String
  punishment_types : List (String × PunishmentTypeA)
  members : List GroupUser
  join_requests : List User
  roles : List (String × String)
  permissions : GroupPermissions

/-- The backend error payload carried by a failed request
(`e.response.data.detail`). -/
structure ApiErrorData where
  detail : String
deriving DecidableEq

/-- The `response` field of an axios error. -/
structure ApiErrorResponse where
  data : ApiErrorData
deriving DecidableEq

/-- `VengefulApiError` from `helpers/api.ts`: an axios error whose response
body has a `detail` field. -/
structure VengefulApiError where
  response : ApiErrorResponse
deriving DecidableEq

/-- A notification as passed to `setNotification`; `type'` renders the JS
`type` field ("success" or "error"), `title` is optional. -/
structure Notification where
  type' : String
  title : Option String
  text : String
deriving DecidableEq

/-- A react-query cache key: a list of parts, where a part is `none` for JS
`undefined` or `some s` for the string `s`. -/
abbrev QueryKey := List (Option String)

/-- One entry of the react-query cache; `valid := false` means the entry
has been invalidated and will be refetched. -/
structure QueryCacheEntry where
  queryKey : List (Option String)
  valid : Bool
deriving DecidableEq

/-- The client-side state touched by the edit-members modal: the query
cache, the notification context, and the modal's own component state. -/
structure ClientState where
  cache : List QueryCacheEntry
  notification : Option Notification
  members : List GroupUser
  selectedPerson : Option GroupUser
  currentRole : String
deriving DecidableEq

/-- Model of `queryClient.invalidateQueries e queryKey f`: every cached query
whose key starts with the given key is marked invalid (react-query matches
by key prefix), everything else is untouched. -/
def invalidateQueries (queryKey : List (Option String))
    (cache : List QueryCacheEntry) : List QueryCacheEntry :=
  cache.map (fun e => if queryKey.isPrefixOf e.queryKey then { e with valid := false } else e)

/-- Model of `setNotification`. -/
def setNotification (n : Notification) (st : ClientState) : ClientState :=
  { st with notification := some n }

/-- HTTP method of an axios call. -/
inductive HttpMethod
  | post
  | delete
  | patch
deriving DecidableEq

/-- An HTTP request issued by a mutation function. -/
structure Request where
  method : HttpMethod
  url : String
  payload : List (String × String)
deriving DecidableEq

/-- Modelled from the spec: `getTransferGroupOwnershipUrl` lives in
`helpers/api.ts`, which is not among the source files; the spec names an
"ownership transfer" endpoint, so the URL is modelled as a tag built from
the two ids. -/
def getTransferGroupOwnershipUrl (groupId userId : String) : String :=
  "group/" ++ groupId ++ "/transferOwnership/" ++ userId

/-- Modelled from the spec: `getDeleteGroupMemberUrl` lives in
`helpers/api.ts`, which is not among the source files; the spec names a
"member delete" endpoint, so the URL is modelled as a tag built from the
two ids. -/
def getDeleteGroupMemberUrl (groupId userId : String) : String :=
  "group/" ++ groupId ++ "/members/" ++ userId

/-- Modelled from the spec: `getPatchGroupMemberPermissionsUrl` lives in
`helpers/api.ts`, which is not among the source files; the spec names a
"member permission patch" endpoint, so the URL is modelled as a tag built
from the two ids. -/
def getPatchGroupMemberPermissionsUrl (groupId userId : String) : String :=
  "group/" ++ groupId ++ "/members/" ++ userId ++ "/permissions"

/-- A `useMutation` configuration: the request performed by the mutation
function and the two settlement handlers. -/
structure MutationConfig where
  request : Request
  onSuccess : ClientState → ClientState
  onError : VengefulApiError → ClientState → ClientState

/-- The transfer-ownership mutation of the edit-members modal, as a function
of `selectedGroup?.group_id` and `selectedPerson?.user_id` (both possibly
`undefined`; the URL uses `?? ""`, the cache key uses the raw value). -/
def transferOwnershipMutation (selectedGroupId selectedPersonId : Option String) :
    MutationConfig where
  request :=
    { method := .post,
      url := getTransferGroupOwnershipUrl (selectedGroupId.getD "") (selectedPersonId.getD ""),
      payload := [] }
  onSuccess := fun st =>
    setNotification { type' := "success", title := none, text := "Lederskap ble overført" }
      { st with cache := invalidateQueries [some "groupLeaderboard", selectedGroupId] st.cache }
  onError := fun e st =>
    setNotification
      { type' := "error", title := some "Lederskap kunne ikke overføres",
        text := e.response.data.detail } st

/-- The remove-member mutation of the edit-members modal. -/
def removeMemberMutation (selectedGroupId selectedPersonId : Option String) :
    MutationConfig where
  request :=
    { method := .delete,
      url := getDeleteGroupMemberUrl (selectedGroupId.getD "") (selectedPersonId.getD ""),
      payload := [] }
  onSuccess := fun st =>
    setNotification { type' := "success", title := none, text := "Medlem ble fjernet" }
      { st with cache := invalidateQueries [some "groupLeaderboard", selectedGroupId] st.cache }
  onError := fun e st =>
    setNotification
      { type' := "error", title := some "Medlem kunne ikke fjernes",
        text := e.response.data.detail } st

/-- The change-role mutation of the edit-members modal; the patch body is
`\x7b privilege: currentRole \x7d`. -/
def changeRoleMutation (selectedGroupId selectedPersonId : Option String)
    (currentRole : String) : MutationConfig where
  request :=
    { method := .patch,
      url := getPatchGroupMemberPermissionsUrl (selectedGroupId.getD "") (selectedPersonId.getD ""),
      payload := [("privilege", currentRole)] }
  onSuccess := fun st =>
    setNotification { type' := "success", title := none, text := "Rolle ble endret" }
      { st with cache := invalidateQueries [some "groupLeaderboard", selectedGroupId] st.cache }
  onError := fun e st =>
    setNotification
      { type' := "error", title := some "Rolle kunne ikke endres",
        text := e.response.data.detail } st

/-- Running `mutate()`: the mutation function issues its one request; when
the promise settles the matching handler is applied to the client state.
The returned list collects every request issued during the run (the
handlers issue none). -/
def runMutation (m : MutationConfig) (st : ClientState)
    (result : Except VengefulApiError Unit) : ClientState × List Request :=
  match result with
  | .ok _ => (m.onSuccess st, [m.request])
  | .error e => (m.onError e st, [m.request])

/-! ## The `useGroupLeaderboard` success callback (modal lines 54-67)

JavaScript `localeCompare` is locale dependent, so the embedding is
parametric in a comparator `lc : String → String → Int` (negative, zero, or
positive like the JS function); `Array.prototype.sort` is a stable sort and
is modelled by `List.mergeSort` on the non-strict comparator. -/

/-- The sort key of a member: the template string `first_name last_name`. -/
def fullName (u : GroupUser) : String := u.first_name ++ " " ++ u.last_name

/-- The sort performed by the callback: a stable sort of the members by
`localeCompare` on full names (a fresh copy `[...group.members]` is sorted,
`sort` keeps elements whose comparison is `≤ 0` in order). -/
def sortMembers (lc : String → String → Int) (members : List GroupUser) : List GroupUser :=
  members.mergeSort (fun a b => decide (lc (fullName a) (fullName b) ≤ 0))

/-- The component state written by the callback. -/
structure ModalMembersState where
  members : List GroupUser
  selectedPerson : Option GroupUser
deriving DecidableEq

/-- The `onSuccess` callback of `useGroupLeaderboard` in the modal: sort a
copy of the fetched members, store it with `setMembers`, and re-select the
previously selected person by id (falling back to the first member). -/
def groupOnSuccess (lc : String → String → Int) (st : ModalMembersState) (group : Group) :
    ModalMembersState :=
  let newMembers := sortMembers lc group.members
  let newSelectedPerson := newMembers.find? (fun member =>
    match st.selectedPerson with
    | some p => member.user_id = p.user_id
    | none => false)
  { members := newMembers,
    selectedPerson :=
      match newSelectedPerson with
      | some m => some m
      | none => newMembers.head? }

/-- The query state around the callback: the fetched group held by the
query cache together with the modal component state. -/
structure LeaderboardQueryState where
  groupData : Group
  modal : ModalMembersState

/-- A leaderboard query resolving: the cache holds the fetched group as-is
(the callback sorts a copy, not the fetched object) and the callback runs. -/
def onGroupFetched (lc : String → String → Int) (qs : LeaderboardQueryState)
    (group : Group) : LeaderboardQueryState :=
  { groupData := group, modal := groupOnSuccess lc qs.modal group }

/-- The ordering property asserted by the specification for the sorted
members list: a member at position `i` precedes the member at position `j`
exactly when its full name compares strictly less. -/
def precedesIffLess (lc : String → String → Int) (ms : List GroupUser) : Prop :=
  ∀ i j : Fin ms.length, i < j ↔ lc (fullName (ms.get i)) (fullName (ms.get j)) < 0

/-- A concrete comparator used to instantiate the parametric theorems: it
compares string lengths.  Every comparator returns `0` on two identical
strings, which is all the counterexample uses. -/
def lcLength (a b : String) : Int := (a.length : Int) - (b.length : Int)

/-- A group member named Ola Nordmann. -/
def olaA : GroupUser :=
  { ow_user_id := 1, user_id := "a", first_name := "Ola", last_name := "Nordmann",
    email := "a@example.com", group_id := "g", ow_group_user_id := none,
    punishments := [], active := true, permissions := [] }

/-- A second, distinct group member with the same full name. -/
def olaB : GroupUser :=
  { ow_user_id := 2, user_id := "b", first_name := "Ola", last_name := "Nordmann",
    email := "b@example.com", group_id := "g", ow_group_user_id := none,
    punishments := [], active := true, permissions := [] }

/-- A group whose member list holds two members with identical full names. -/
def dupGroup : Group :=
  { name := "G", name_short := "G", rules := "", image := "", ow_group_id := none,
    group_id := "g", punishment_types := [], members := [olaA, olaB],
    join_requests := [], roles := [], permissions := [] }

/-! ## Permission gating and confirm flows (modal lines 204-275) -/

/-- Modelled from the spec: `hasPermission` lives in
`helpers/permissions.ts`, which is not among the source files; the spec
describes it as checking whether the member's role has the named capability
in the group's static permission table. -/
def hasPermission (permissions : GroupPermissions) (permission : String) (role : String) :
    Bool :=
  match permissions.find? (fun kv => kv.1 = role) with
  | some kv => kv.2.contains permission
  | none => false

/-- The three action buttons of the modal body. -/
inductive ButtonId
  | changeRole
  | transferOwnership
  | removeMember
deriving DecidableEq

/-- The buttons rendered by the modal body: a spinner while `groupData` is
undefined; otherwise the change-role button always, the transfer-ownership
button gated on `group.ownership.transfer`, and the remove-member button
gated on `group.members.remove`. -/
def renderedButtons (groupData : Option Group) (currentUserRole : String) : List ButtonId :=
  match groupData with
  | none => []
  | some g =>
    [ButtonId.changeRole]
      ++ (if hasPermission g.permissions "group.ownership.transfer" currentUserRole
          then [ButtonId.transferOwnership] else [])
      ++ (if hasPermission g.permissions "group.members.remove" currentUserRole
          then [ButtonId.removeMember] else [])

/-- The three mutations a button flow can invoke. -/
inductive MutationCall
  | transferOwnership
  | removeMember
  | changeRole
deriving DecidableEq

/-- A confirm-modal request as set up by a button's `onClick`: the modal
type and the `onClose` continuation, returning the mutations it invokes for
a given dialog outcome. -/
structure ConfirmRequest where
  confirmType : String
  onClose : Bool → List MutationCall

/-- Clicking the transfer-ownership button: an INPUT confirm dialog whose
`onClose` runs the mutation only on an affirmative outcome. -/
def transferOwnershipClick : ConfirmRequest :=
  { confirmType := "INPUT",
    onClose := fun retval => if retval then [MutationCall.transferOwnership] else [] }

/-- Clicking the remove-member button: a YESNO confirm dialog whose
`onClose` runs the mutation only on an affirmative outcome. -/
def removeMemberClick : ConfirmRequest :=
  { confirmType := "YESNO",
    onClose := fun retval => if retval then [MutationCall.removeMember] else [] }

/-! ## Self-targeting protection (modal lines 49, 252, 272) -/

/-- The context the disabled checks read. -/
structure EditModalCtx where
  selectedPerson : Option GroupUser
  currentUserId : String

/-- `isCurrentUserSelected`: `selectedPerson?.user_id === currentUser.user_id`
(false when no person is selected, since `undefined` equals no string). -/
def isCurrentUserSelected (ctx : EditModalCtx) : Bool :=
  match ctx.selectedPerson with
  | some p => p.user_id = ctx.currentUserId
  | none => false

/-- A mutation call together with the user id it targets. -/
structure TargetedMutation where
  call : MutationCall
  targetUserId : String

/-- Modelled from the spec: the shared Button component (`components/button`,
not among the source files) follows standard disabled-button semantics — a
disabled button never fires its click handler. -/
def fireIfEnabled (disabled : Bool) (events : List TargetedMutation) : List TargetedMutation :=
  if disabled then [] else events

/-- The full transfer-ownership flow from the button: if the button is
enabled, the click opens the confirm dialog, and an affirmative outcome
`retval` runs the mutation against `selectedPerson?.user_id ?? ""`. -/
def transferOwnershipFlow (ctx : EditModalCtx) (retval : Bool) : List TargetedMutation :=
  fireIfEnabled (isCurrentUserSelected ctx)
    (if retval
     then [{ call := MutationCall.transferOwnership,
             targetUserId := (ctx.selectedPerson.map GroupUser.user_id).getD "" }]
     else [])

/-- The full remove-member flow from the button, as `transferOwnershipFlow`. -/
def removeMemberFlow (ctx : EditModalCtx) (retval : Bool) : List TargetedMutation :=
  fireIfEnabled (isCurrentUserSelected ctx)
    (if retval
     then [{ call := MutationCall.removeMember,
             targetUserId := (ctx.selectedPerson.map GroupUser.user_id).getD "" }]
     else [])

/-! ## The `Layout` bearer header (`views/layout/Layout.tsx`) -/

/-- The auth object from `react-oidc-context` as the Layout reads it. -/
structure OidcUser where
  access_token : String
deriving DecidableEq

/-- The fields of the auth state the Layout branches on. -/
structure AuthState where
  activeNavigator : Option String
  isLoading : Bool
  error : Option String
  isAuthenticated : Bool
  user : Option OidcUser
deriving DecidableEq

/-- The axios default headers, an association list written by assignment
(latest assignment read first). -/
abbrev Headers := List (String × String)

/-- Assignment to `axios.defaults.headers.common[k]`. -/
def setHeader (hs : Headers) (k v : String) : Headers := (k, v) :: hs

/-- Reading a default header. -/
def getHeader (hs : Headers) (k : String) : Option String :=
  (List.find? (fun kv => kv.1 = k) hs).map (fun kv => kv.2)

/-- One render of `Layout`, restricted to its effect on the axios default
headers: the navigator, loading, and error branches return before the
header assignment; only the authenticated fall-through sets the header, to
the template string `Bearer ${auth.user?.access_token}` (JS renders a
missing user as the string `undefined`). -/
def layoutRun (auth : AuthState) (hs : Headers) : Headers :=
  if auth.activeNavigator = some "signinSilent" then hs
  else if auth.activeNavigator = some "signoutRedirect" then hs
  else if auth.isLoading then hs
  else if auth.error.isSome then hs
  else if auth.isAuthenticated then
    setHeader hs "Authorization"
      ("Bearer " ++ (match auth.user with | some u => u.access_token | none => "undefined"))
  else hs

/-- An auth state that is authenticated while a silent sign-in is still
loading. -/
def loadingAuthedState : AuthState :=
  { activeNavigator := none, isLoading := true, error := none,
    isAuthenticated := true, user := some { access_token := "tok" } }

/-- When two states agree on every client-state component except possibly
the notification. -/
def agreesExceptNotification (a b : ClientState) : Prop :=
  a.cache = b.cache ∧ a.members = b.members ∧
  a.selectedPerson = b.selectedPerson ∧ a.currentRole = b.currentRole

/-- A concrete cached query for the witnesses: the leaderboard of group
`g1`. -/
def entryW : QueryCacheEntry :=
  { queryKey := [some "groupLeaderboard", some "g1", some "extra"], valid := true }

/-- A concrete client state for the witnesses. -/
def stW : ClientState :=
  { cache := [entryW], notification := none, members := [],
    selectedPerson := none, currentRole := "" }

/-- A concrete group for the witnesses: its table grants the owner role the
ownership-transfer capability but not the member-remove capability. -/
def groupW : Group :=
  { name := "G", name_short := "G", rules := "", image := "", ow_group_id := none,
    group_id := "g1", punishment_types := [], members := [olaA],
    join_requests := [], roles := [("Owner", "group.owner")],
    permissions := [("group.owner", ["group.ownership.transfer"])] }

/-- A concrete modal context for the witnesses, with the current user
selected. -/
def ctxW : EditModalCtx := { selectedPerson := some olaA, currentUserId := "a" }

/-- A concrete auth state for the witnesses: authenticated, idle, no
error. -/
def authW : AuthState :=
  { activeNavigator := none, isLoading := false, error := none,
    isAuthenticated := true, user := some { access_token := "tok2" } }

end App

end Vineyard

/-- C1, counterexample: the code lowercases the user's names but not the
search term, so matching is not case-insensitive in the term.  The user
"Anna" matches the search term "A" case-insensitively (so the claim puts her
in `filteredUsers`), yet the store computed by the code is empty. -/
theorem C1_counterexample :
    Vineyard.specMatchC1 "A" true Vineyard.annaUser = true ∧
    Vineyard.annaUser ∉ Vineyard.filteredUsers "A" [Vineyard.annaUser] true [] := by
  constructor
  · decide
  · decide

/-- C1, amended: `filteredUsers` contains exactly those users that are
active or pass the `showInactive` flag and whose lowercased first or last
name contains the search term as written (the term itself is not
lowercased), in the original order of the users list. -/
theorem C1_filteredUsers_characterization
    (term : String) (users : List Vineyard.User) (showInactive : Bool)
    (filterOnPunishments : List Vineyard.PunishmentType) :
    Vineyard.filteredUsers term users showInactive filterOnPunishments =
      users.filter (fun user =>
        (showInactive || user.active) &&
        (Vineyard.jsIncludes (Vineyard.toLocaleLowerCase user.first_name) term ||
         Vineyard.jsIncludes (Vineyard.toLocaleLowerCase user.last_name) term)) := by
  unfold Vineyard.filteredUsers
  rw [List.filter_filter]
  apply List.filter_congr
  intro user _
  cases showInactive <;> cases h : user.active <;> simp [h]

/-- C8: the derived store `filteredUsers` does not depend on the
`filterOnPunishments` store: two states agreeing on the other three stores
yield the same filtered list. -/
theorem C8_filteredUsers_ignores_punishment_filter
    (term : String) (users : List Vineyard.User) (showInactive : Bool)
    (fp1 fp2 : List Vineyard.PunishmentType) :
    Vineyard.filteredUsers term users showInactive fp1 =
    Vineyard.filteredUsers term users showInactive fp2 := rfl

namespace Vineyard

/-- Membership behaviour of `invalidateQueries`: a cached entry whose key
starts with the invalidated key reappears invalidated; any other entry
survives untouched. -/
theorem App.invalidateQueries_spec (key : List (Option String))
    (cache : List App.QueryCacheEntry) (en : App.QueryCacheEntry) (hen : en ∈ cache) :
    (key.isPrefixOf en.queryKey = true →
      { en with valid := false } ∈ App.invalidateQueries key cache)
    ∧ (key.isPrefixOf en.queryKey = false →
      en ∈ App.invalidateQueries key cache) := by
  constructor <;> intro h
  · exact List.mem_map.mpr ⟨en, hen, by simp [h]⟩
  · exact List.mem_map.mpr ⟨en, hen, by simp [h]⟩

end Vineyard

/-- C2: for each of the three mutations of the edit-members modal, a failed
request changes no client-side state other than the notification; in
particular the query cache (hence the displayed leaderboard data) is
untouched. -/
theorem C2_failed_mutation_changes_only_notification
    (gid uid : Option String) (role : String) (st : Vineyard.App.ClientState)
    (e : Vineyard.App.VengefulApiError) :
    Vineyard.App.agreesExceptNotification
      (Vineyard.App.runMutation (Vineyard.App.transferOwnershipMutation gid uid) st (.error e)).1 st
    ∧ Vineyard.App.agreesExceptNotification
      (Vineyard.App.runMutation (Vineyard.App.removeMemberMutation gid uid) st (.error e)).1 st
    ∧ Vineyard.App.agreesExceptNotification
      (Vineyard.App.runMutation (Vineyard.App.changeRoleMutation gid uid role) st (.error e)).1 st :=
  ⟨⟨rfl, rfl, rfl, rfl⟩, ⟨rfl, rfl, rfl, rfl⟩, ⟨rfl, rfl, rfl, rfl⟩⟩

/-- C3: each failing mutation produces exactly an error notification whose
text is the backend payload's `detail` field, leaves everything else
unchanged, and issues exactly the one original request — no retry. -/
theorem C3_error_notification_detail_and_no_retry
    (gid uid : Option String) (role : String) (st : Vineyard.App.ClientState)
    (e : Vineyard.App.VengefulApiError) :
    Vineyard.App.runMutation (Vineyard.App.transferOwnershipMutation gid uid) st (.error e) =
      ({ st with
          notification := some
            { type' := "error", title := some "Lederskap kunne ikke overføres",
              text := e.response.data.detail } },
       [(Vineyard.App.transferOwnershipMutation gid uid).request])
    ∧ Vineyard.App.runMutation (Vineyard.App.removeMemberMutation gid uid) st (.error e) =
      ({ st with
          notification := some
            { type' := "error", title := some "Medlem kunne ikke fjernes",
              text := e.response.data.detail } },
       [(Vineyard.App.removeMemberMutation gid uid).request])
    ∧ Vineyard.App.runMutation (Vineyard.App.changeRoleMutation gid uid role) st (.error e) =
      ({ st with
          notification := some
            { type' := "error", title := some "Rolle kunne ikke endres",
              text := e.response.data.detail } },
       [(Vineyard.App.changeRoleMutation gid uid role).request]) :=
  ⟨rfl, rfl, rfl⟩

/-- C5: the transfer-ownership button is rendered exactly when the current
user's role has `group.ownership.transfer` in the group's permission table,
the remove-member button exactly when it has `group.members.remove`, and
each button's confirm dialog invokes the corresponding mutation exactly on
an affirmative outcome. -/
theorem C5_permission_gating_and_confirmation (g : Vineyard.App.Group) (role : String) :
    (Vineyard.App.ButtonId.transferOwnership ∈ Vineyard.App.renderedButtons (some g) role ↔
      Vineyard.App.hasPermission g.permissions "group.ownership.transfer" role = true)
    ∧ (Vineyard.App.ButtonId.removeMember ∈ Vineyard.App.renderedButtons (some g) role ↔
      Vineyard.App.hasPermission g.permissions "group.members.remove" role = true)
    ∧ Vineyard.App.transferOwnershipClick.onClose false = []
    ∧ Vineyard.App.transferOwnershipClick.onClose true =
        [Vineyard.App.MutationCall.transferOwnership]
    ∧ Vineyard.App.removeMemberClick.onClose false = []
    ∧ Vineyard.App.removeMemberClick.onClose true = [Vineyard.App.MutationCall.removeMember] := by
  refine ⟨?_, ?_, rfl, rfl, rfl, rfl⟩ <;>
    cases h1 : Vineyard.App.hasPermission g.permissions "group.ownership.transfer" role <;>
    cases h2 : Vineyard.App.hasPermission g.permissions "group.members.remove" role <;>
    simp [Vineyard.App.renderedButtons, h1, h2]

/-- C5 witness: in the concrete group `groupW` the owner role may transfer
ownership (button rendered) but may not remove members (button absent). -/
theorem C5_permission_gating_witness :
    Vineyard.App.ButtonId.transferOwnership ∈
      Vineyard.App.renderedButtons (some Vineyard.App.groupW) "group.owner"
    ∧ Vineyard.App.ButtonId.removeMember ∉
      Vineyard.App.renderedButtons (some Vineyard.App.groupW) "group.owner" :=
  ⟨(C5_permission_gating_and_confirmation Vineyard.App.groupW "group.owner").1.mpr (by decide),
   fun h => by
    have := (C5_permission_gating_and_confirmation Vineyard.App.groupW "group.owner").2.1.mp h
    exact absurd this (by decide)⟩

/-- C6: for each of the three mutations, on success every cached query
whose key extends `["groupLeaderboard", selectedGroupId]` is invalidated
and a success notification is shown; on error the cache is untouched, so
invalidation happens on success and only on success. -/
theorem C6_success_invalidation
    (gid uid : Option String) (role : String) (st : Vineyard.App.ClientState) :
    (∀ en ∈ st.cache, List.isPrefixOf [some "groupLeaderboard", gid] en.queryKey = true →
      { en with valid := false } ∈
        (Vineyard.App.runMutation (Vineyard.App.transferOwnershipMutation gid uid) st
          (.ok ())).1.cache)
    ∧ (Vineyard.App.runMutation (Vineyard.App.transferOwnershipMutation gid uid) st
        (.ok ())).1.notification =
        some { type' := "success", title := none, text := "Lederskap ble overført" }
    ∧ (∀ e, (Vineyard.App.runMutation (Vineyard.App.transferOwnershipMutation gid uid) st
        (.error e)).1.cache = st.cache)
    ∧ (∀ en ∈ st.cache, List.isPrefixOf [some "groupLeaderboard", gid] en.queryKey = true →
      { en with valid := false } ∈
        (Vineyard.App.runMutation (Vineyard.App.removeMemberMutation gid uid) st
          (.ok ())).1.cache)
    ∧ (Vineyard.App.runMutation (Vineyard.App.removeMemberMutation gid uid) st
        (.ok ())).1.notification =
        some { type' := "success", title := none, text := "Medlem ble fjernet" }
    ∧ (∀ e, (Vineyard.App.runMutation (Vineyard.App.removeMemberMutation gid uid) st
        (.error e)).1.cache = st.cache)
    ∧ (∀ en ∈ st.cache, List.isPrefixOf [some "groupLeaderboard", gid] en.queryKey = true →
      { en with valid := false } ∈
        (Vineyard.App.runMutation (Vineyard.App.changeRoleMutation gid uid role) st
          (.ok ())).1.cache)
    ∧ (Vineyard.App.runMutation (Vineyard.App.changeRoleMutation gid uid role) st
        (.ok ())).1.notification =
        some { type' := "success", title := none, text := "Rolle ble endret" }
    ∧ (∀ e, (Vineyard.App.runMutation (Vineyard.App.changeRoleMutation gid uid role) st
        (.error e)).1.cache = st.cache) :=
  ⟨fun en hen h => (Vineyard.App.invalidateQueries_spec _ st.cache en hen).1 h, rfl,
   fun _ => rfl,
   fun en hen h => (Vineyard.App.invalidateQueries_spec _ st.cache en hen).1 h, rfl,
   fun _ => rfl,
   fun en hen h => (Vineyard.App.invalidateQueries_spec _ st.cache en hen).1 h, rfl,
   fun _ => rfl⟩

/-- C6 witness: in the concrete state `stW`, a successful transfer of
ownership in group `g1` invalidates the cached `g1` leaderboard query. -/
theorem C6_success_invalidation_witness :
    { Vineyard.App.entryW with valid := false } ∈
      (Vineyard.App.runMutation
        (Vineyard.App.transferOwnershipMutation (some "g1") (some "u1"))
        Vineyard.App.stW (.ok ())).1.cache :=
  (C6_success_invalidation (some "g1") (some "u1") "r" Vineyard.App.stW).1
    Vineyard.App.entryW (by decide) (by decide)

/-- C7, counterexample: an auth state can be authenticated while a silent
sign-in is still loading; the Layout then returns before the assignment and
the Authorization default header is not set, contradicting the claim that
it equals the bearer token whenever the state is authenticated. -/
theorem C7_counterexample :
    Vineyard.App.loadingAuthedState.isAuthenticated = true
    ∧ Vineyard.App.layoutRun Vineyard.App.loadingAuthedState [] = []
    ∧ Vineyard.App.getHeader (Vineyard.App.layoutRun Vineyard.App.loadingAuthedState [])
        "Authorization" = none := by
  refine ⟨rfl, ?_, ?_⟩ <;> decide

/-- C7, amended: whenever the Layout render reaches past its early returns
(no signinSilent/signoutRedirect navigator, not loading, no error) while
the auth state is authenticated, the default Authorization header is set to
`"Bearer "` followed by the access token; and whenever the auth state is
not authenticated the Layout leaves the headers untouched. -/
theorem C7_header_amended (auth : Vineyard.App.AuthState) (hs : Vineyard.App.Headers) :
    (∀ u, auth.activeNavigator ≠ some "signinSilent" →
      auth.activeNavigator ≠ some "signoutRedirect" →
      auth.isLoading = false → auth.error = none → auth.isAuthenticated = true →
      auth.user = some u →
      Vineyard.App.getHeader (Vineyard.App.layoutRun auth hs) "Authorization" =
        some ("Bearer " ++ u.access_token))
    ∧ (auth.isAuthenticated = false → Vineyard.App.layoutRun auth hs = hs) := by
  constructor
  · intro u h1 h2 h3 h4 h5 h6
    unfold Vineyard.App.layoutRun
    rw [if_neg h1, if_neg h2, h3, if_neg (by simp), if_neg (by simp [h4]), h5, if_pos rfl, h6]
    simp [Vineyard.App.getHeader, Vineyard.App.setHeader]
  · intro h
    unfold Vineyard.App.layoutRun
    split_ifs <;> simp_all

/-- C7 witness: on the concrete idle authenticated state `authW`, the
Layout sets the Authorization header to the bearer token. -/
theorem C7_header_amended_witness :
    Vineyard.App.getHeader (Vineyard.App.layoutRun Vineyard.App.authW []) "Authorization" =
      some ("Bearer " ++ "tok2") :=
  (C7_header_amended Vineyard.App.authW []).1 { access_token := "tok2" }
    (by decide) (by decide) rfl rfl rfl rfl

/-- C9: whenever a person is selected in the edit-members modal and that
person is the current user, the transfer-ownership and remove-member
buttons are disabled and their flows invoke no mutation; moreover no run of
either flow ever invokes a mutation targeting the current user. -/
theorem C9_self_target_protection (ctx : Vineyard.App.EditModalCtx)
    (p : Vineyard.App.GroupUser) (h : ctx.selectedPerson = some p) :
    (p.user_id = ctx.currentUserId →
      Vineyard.App.isCurrentUserSelected ctx = true
      ∧ ∀ retval, Vineyard.App.transferOwnershipFlow ctx retval = []
          ∧ Vineyard.App.removeMemberFlow ctx retval = [])
    ∧ (∀ retval t, t ∈ Vineyard.App.transferOwnershipFlow ctx retval →
        t.targetUserId ≠ ctx.currentUserId)
    ∧ (∀ retval t, t ∈ Vineyard.App.removeMemberFlow ctx retval →
        t.targetUserId ≠ ctx.currentUserId) := by
  by_cases hid : p.user_id = ctx.currentUserId
  · refine ⟨fun _ => ⟨?_, fun retval => ⟨?_, ?_⟩⟩, ?_, ?_⟩ <;>
      simp [Vineyard.App.isCurrentUserSelected, Vineyard.App.transferOwnershipFlow,
        Vineyard.App.removeMemberFlow, Vineyard.App.fireIfEnabled, h, hid]
  · refine ⟨fun hc => absurd hc hid, ?_, ?_⟩ <;>
      · intro retval t ht
        simp [Vineyard.App.transferOwnershipFlow, Vineyard.App.removeMemberFlow,
          Vineyard.App.fireIfEnabled, Vineyard.App.isCurrentUserSelected, h, hid] at ht
        rcases ht with ⟨-, ht⟩
        cases retval <;> simp_all

/-- C9 witness: in the concrete context `ctxW` the current user is the
selected person, so the self-check fires and the remove flow is empty even
on an affirmative confirmation. -/
theorem C9_self_target_protection_witness :
    Vineyard.App.isCurrentUserSelected Vineyard.App.ctxW = true
    ∧ Vineyard.App.removeMemberFlow Vineyard.App.ctxW true = [] :=
  ⟨((C9_self_target_protection Vineyard.App.ctxW Vineyard.App.olaA rfl).1 rfl).1,
   (((C9_self_target_protection Vineyard.App.ctxW Vineyard.App.olaA rfl).1 rfl).2 true).2⟩

/-- C4, counterexample: with two distinct members of identical full name,
the sorted members list places one before the other even though their keys
do not compare strictly less (every comparator returns `0` on identical
strings), so "x precedes y exactly when x's key is less than y's key" fails
on the code. -/
theorem C4_counterexample :
    (Vineyard.App.groupOnSuccess Vineyard.App.lcLength
        { members := [], selectedPerson := none } Vineyard.App.dupGroup).members =
      [Vineyard.App.olaA, Vineyard.App.olaB]
    ∧ ¬ Vineyard.App.precedesIffLess Vineyard.App.lcLength
        (Vineyard.App.groupOnSuccess Vineyard.App.lcLength
          { members := [], selectedPerson := none } Vineyard.App.dupGroup).members := by
  have hsorted : Vineyard.App.sortMembers Vineyard.App.lcLength
      [Vineyard.App.olaA, Vineyard.App.olaB] = [Vineyard.App.olaA, Vineyard.App.olaB] :=
    List.mergeSort_of_sorted (by
      refine List.Pairwise.cons ?_ (List.pairwise_singleton _ _)
      intro b hb
      rw [List.mem_singleton] at hb
      subst hb
      decide)
  have hmem : (Vineyard.App.groupOnSuccess Vineyard.App.lcLength
      { members := [], selectedPerson := none } Vineyard.App.dupGroup).members =
      [Vineyard.App.olaA, Vineyard.App.olaB] := hsorted
  refine ⟨hmem, ?_⟩
  intro hp
  rw [hmem] at hp
  have h01 := (hp ⟨0, by decide⟩ ⟨1, by decide⟩).mp (by decide)
  exact absurd h01 (by decide)

/-- C4, amended: whenever the leaderboard query resolves, the members state
is set to a stable sort of the fetched member list under `localeCompare` of
the full-name keys — a permutation of `group.members`, pairwise
non-strictly ordered, and keeping every already-ordered pair (in particular
ties) in original order — while the fetched group object held by the query
is unchanged.  The statement is parametric in the comparator `lc`, assumed
transitive and total as `localeCompare` is. -/
theorem C4_members_sorted_amended (lc : String → String → Int)
    (htrans : ∀ a b c : String, lc a b ≤ 0 → lc b c ≤ 0 → lc a c ≤ 0)
    (htotal : ∀ a b : String, lc a b ≤ 0 ∨ lc b a ≤ 0)
    (qs : Vineyard.App.LeaderboardQueryState) (g : Vineyard.App.Group) :
    ((Vineyard.App.onGroupFetched lc qs g).modal.members).Perm g.members
    ∧ ((Vineyard.App.onGroupFetched lc qs g).modal.members).Pairwise
        (fun a b => lc (Vineyard.App.fullName a) (Vineyard.App.fullName b) ≤ 0)
    ∧ (∀ a b, [a, b].Sublist g.members →
        lc (Vineyard.App.fullName a) (Vineyard.App.fullName b) ≤ 0 →
        [a, b].Sublist ((Vineyard.App.onGroupFetched lc qs g).modal.members))
    ∧ (Vineyard.App.onGroupFetched lc qs g).groupData = g := by
  have htransB : ∀ a b c : Vineyard.App.GroupUser,
      decide (lc (Vineyard.App.fullName a) (Vineyard.App.fullName b) ≤ 0) = true →
      decide (lc (Vineyard.App.fullName b) (Vineyard.App.fullName c) ≤ 0) = true →
      decide (lc (Vineyard.App.fullName a) (Vineyard.App.fullName c) ≤ 0) = true := by
    intro a b c h1 h2
    rw [decide_eq_true_eq] at *
    exact htrans _ _ _ h1 h2
  have htotalB : ∀ a b : Vineyard.App.GroupUser,
      (decide (lc (Vineyard.App.fullName a) (Vineyard.App.fullName b) ≤ 0)
        || decide (lc (Vineyard.App.fullName b) (Vineyard.App.fullName a) ≤ 0)) = true := by
    intro a b
    rw [Bool.or_eq_true, decide_eq_true_eq, decide_eq_true_eq]
    exact htotal _ _
  refine ⟨List.mergeSort_perm _ _, ?_, ?_, rfl⟩
  · exact (List.sorted_mergeSort htransB htotalB g.members).imp
      (fun h => of_decide_eq_true h)
  · intro a b hsub hab
    exact List.pair_sublist_mergeSort htransB htotalB (decide_eq_true hab) hsub

/-- C4 witness: the amended statement instantiated with the length
comparator and the concrete duplicate-name group. -/
theorem C4_members_sorted_amended_witness :
    ((Vineyard.App.onGroupFetched Vineyard.App.lcLength
        { groupData := Vineyard.App.dupGroup,
          modal := { members := [], selectedPerson := none } }
        Vineyard.App.dupGroup).modal.members).Perm Vineyard.App.dupGroup.members
    ∧ (Vineyard.App.onGroupFetched Vineyard.App.lcLength
        { groupData := Vineyard.App.dupGroup,
          modal := { members := [], selectedPerson := none } }
        Vineyard.App.dupGroup).groupData = Vineyard.App.dupGroup :=
  ⟨(C4_members_sorted_amended Vineyard.App.lcLength
      (fun a b c h1 h2 => by simp [Vineyard.App.lcLength] at *; omega)
      (fun a b => by simp [Vineyard.App.lcLength]; omega)
      { groupData := Vineyard.App.dupGroup,
        modal := { members := [], selectedPerson := none } }
      Vineyard.App.dupGroup).1,
   (C4_members_sorted_amended Vineyard.App.lcLength
      (fun a b c h1 h2 => by simp [Vineyard.App.lcLength] at *; omega)
      (fun a b => by simp [Vineyard.App.lcLength]; omega)
      { groupData := Vineyard.App.dupGroup,
        modal := { members := [], selectedPerson := none } }
      Vineyard.App.dupGroup).2.2.2⟩

namespace Vineyard

/-! ### Round-trip lemmas for the JSON model -/

theorem parseLit_self (l rest : List Char) : parseLit l (l ++ rest) = some rest := by
  induction l with
  | nil => rfl
  | cons c ls ih => simp [parseLit, ih]

theorem expectChar_self (c : Char) (rest : List Char) :
    expectChar c (c :: rest) = some rest := by
  simp [expectChar]

theorem parseKey_self (k : String) (rest : List Char) :
    parseKey k (keyChars k ++ rest) = some rest :=
  parseLit_self _ _

theorem isDigitChar_jsonDigit (d : Nat) (h : d < 10) : isDigitChar (jsonDigit d) = true := by
  interval_cases d <;> decide

theorem toNat_jsonDigit (d : Nat) (h : d < 10) : (jsonDigit d).toNat = 48 + d := by
  interval_cases d <;> decide

theorem encNat_digits (n : Nat) : ∀ c ∈ encNat n, isDigitChar c = true := by
  intro c hc
  unfold encNat at hc
  split at hc
  · simp at hc
    subst hc
    decide
  · simp only [List.mem_map, List.mem_reverse] at hc
    obtain ⟨d, hd, rfl⟩ := hc
    exact isDigitChar_jsonDigit d (Nat.digits_lt_base (by norm_num) hd)

theorem encNat_ne_nil (n : Nat) : encNat n ≠ [] := by
  unfold encNat
  split
  · simp
  · next h =>
    simp only [ne_eq, List.map_eq_nil_iff, List.reverse_eq_nil_iff]
    exact Nat.digits_ne_nil_iff_ne_zero.mpr h

theorem parseNatAux_digits (ds : List Char) (hds : ∀ c ∈ ds, isDigitChar c = true) :
    ∀ (rest : List Char) (acc : Nat), noLeadingDigit rest = true →
      parseNatAux (ds ++ rest) acc =
        (ds.foldl (fun a c => a * 10 + (c.toNat - 48)) acc, rest) := by
  induction ds with
  | nil =>
    intro rest acc hrest
    cases rest with
    | nil => rfl
    | cons c cs =>
      have hc : isDigitChar c = false := by
        simpa [noLeadingDigit] using hrest
      simp [parseNatAux, hc]
  | cons d ds ih =>
    intro rest acc hrest
    have hd : isDigitChar d = true := hds d (by simp)
    simp only [List.cons_append, parseNatAux, hd, if_true, List.foldl_cons]
    exact ih (fun c hc => hds c (by simp [hc])) rest _ hrest

theorem foldl_digits_value (L : List Nat) (hL : ∀ d ∈ L, d < 10) (acc : Nat) :
    (L.reverse.map jsonDigit).foldl (fun a c => a * 10 + (c.toNat - 48)) acc =
      acc * 10 ^ L.length + Nat.ofDigits 10 L := by
  induction L generalizing acc with
  | nil => simp [Nat.ofDigits]
  | cons d L ih =>
    have hd : d < 10 := hL d (by simp)
    have hL' : ∀ x ∈ L, x < 10 := fun x hx => hL x (by simp [hx])
    simp only [List.reverse_cons, List.map_append, List.map_cons, List.map_nil,
      List.foldl_append, List.foldl_cons, List.foldl_nil]
    rw [ih hL', toNat_jsonDigit d hd, Nat.ofDigits_cons]
    simp only [Nat.add_sub_cancel_left, List.length_cons, pow_succ]
    ring

theorem parseNat_enc (n : Nat) (rest : List Char) (hrest : noLeadingDigit rest = true) :
    parseNat (encNat n ++ rest) = some (n, rest) := by
  have hval : (encNat n).foldl (fun a c => a * 10 + (c.toNat - 48)) 0 = n := by
    unfold encNat
    split
    · next h => subst h; decide
    · rw [foldl_digits_value _ (fun d hd => Nat.digits_lt_base (by norm_num) hd) 0,
        Nat.ofDigits_digits]
      simp
  obtain ⟨c, t, hct⟩ : ∃ c t, encNat n = c :: t := by
    cases h : encNat n with
    | nil => exact absurd h (encNat_ne_nil n)
    | cons c t => exact ⟨c, t, rfl⟩
  have hc : isDigitChar c = true := encNat_digits n c (by rw [hct]; simp)
  have haux := parseNatAux_digits (encNat n) (encNat_digits n) rest 0 hrest
  rw [hct] at haux ⊢
  simp only [List.cons_append, parseNat, hc, if_true]
  rw [← List.cons_append, haux]
  rw [hct] at hval
  rw [hval]

theorem digit_ne_minus (c : Char) (h : isDigitChar c = true) : c ≠ '-' := by
  intro he
  subst he
  exact absurd h (by decide)

theorem digit_ne_n (c : Char) (h : isDigitChar c = true) : c ≠ 'n' := by
  intro he
  subst he
  exact absurd h (by decide)

theorem parseInt_enc (i : Int) (rest : List Char) (hrest : noLeadingDigit rest = true) :
    parseInt (encInt i ++ rest) = some (i, rest) := by
  cases i with
  | ofNat n =>
    obtain ⟨c, t, hct⟩ : ∃ c t, encNat n = c :: t := by
      cases h : encNat n with
      | nil => exact absurd h (encNat_ne_nil n)
      | cons c t => exact ⟨c, t, rfl⟩
    have hc : isDigitChar c = true := encNat_digits n c (by rw [hct]; simp)
    have hne : ¬ (c = '-') := digit_ne_minus c hc
    have hp := parseNat_enc n rest hrest
    show parseInt (encNat n ++ rest) = some ((n : Int), rest)
    rw [hct] at hp ⊢
    rw [List.cons_append] at hp ⊢
    simp only [parseInt, if_neg hne, hp]
  | negSucc n =>
    have hp := parseNat_enc (n + 1) rest hrest
    show parseInt ('-' :: (encNat (n + 1) ++ rest)) = some (Int.negSucc n, rest)
    simp only [parseInt, if_pos rfl, hp, if_true, Option.some.injEq, Prod.mk.injEq, and_true]
    rw [Int.negSucc_eq]
    push_cast
    ring

theorem parseStrBody_enc (l rest : List Char) :
    parseStrBody (escapeChars l ++ '"' :: rest) = some (l, rest) := by
  induction l with
  | nil =>
    show parseStrBody ('"' :: rest) = some ([], rest)
    rw [parseStrBody.eq_def]
    simp
  | cons c l ih =>
    by_cases h1 : c = '"'
    · subst h1
      have he : escapeChars ('"' :: l) = '\\' :: '"' :: escapeChars l := by
        simp [escapeChars, escapeChar]
      rw [he, List.cons_append, List.cons_append, parseStrBody.eq_def]
      simp [ih]
    · by_cases h2 : c = '\\'
      · subst h2
        have he : escapeChars ('\\' :: l) = '\\' :: '\\' :: escapeChars l := by
          simp [escapeChars, escapeChar]
        rw [he, List.cons_append, List.cons_append, parseStrBody.eq_def]
        simp [ih]
      · have he : escapeChars (c :: l) = c :: escapeChars l := by
          simp [escapeChars, escapeChar, h1, h2]
        rw [he, List.cons_append, parseStrBody.eq_def]
        simp [h1, h2, ih]

theorem parseString_enc (s : String) (rest : List Char) :
    parseString (encString s ++ rest) = some (s, rest) := by
  show parseString (('"' :: (escapeChars s.data ++ ['"'])) ++ rest) = some (s, rest)
  simp only [List.cons_append, List.append_assoc, List.singleton_append]
  simp [parseString, parseStrBody_enc]

theorem parseBool_enc (b : Bool) (rest : List Char) :
    parseBool (encBool b ++ rest) = some (b, rest) := by
  cases b <;> simp [encBool, parseBool, parseLit]

theorem parseOptString_enc (o : Option String) (rest : List Char) :
    parseOptString (encOptString o ++ rest) = some (o, rest) := by
  cases o with
  | none =>
    show parseOptString (nullChars ++ rest) = some (none, rest)
    simp [parseOptString, parseLit_self]
  | some s =>
    have h1 : parseLit nullChars (encString s ++ rest) = none := rfl
    show parseOptString (encString s ++ rest) = some (some s, rest)
    simp [parseOptString, h1, parseString_enc]

theorem encInt_head (i : Int) : ∃ c t, encInt i = c :: t ∧ c ≠ 'n' := by
  cases i with
  | ofNat n =>
    obtain ⟨c, t, hct⟩ : ∃ c t, encNat n = c :: t := by
      cases h : encNat n with
      | nil => exact absurd h (encNat_ne_nil n)
      | cons c t => exact ⟨c, t, rfl⟩
    exact ⟨c, t, hct, digit_ne_n c (encNat_digits n c (by rw [hct]; simp))⟩
  | negSucc n => exact ⟨'-', encNat (n + 1), rfl, by decide⟩

theorem parseOptInt_enc (o : Option Int) (rest : List Char)
    (hrest : noLeadingDigit rest = true) :
    parseOptInt (encOptInt o ++ rest) = some (o, rest) := by
  cases o with
  | none =>
    show parseOptInt (nullChars ++ rest) = some (none, rest)
    simp [parseOptInt, parseLit_self]
  | some i =>
    have h1 : parseLit nullChars (encInt i ++ rest) = none := by
      obtain ⟨c, t, hct, hc⟩ := encInt_head i
      rw [hct, List.cons_append]
      simp [nullChars, parseLit, hc]
    show parseOptInt (encInt i ++ rest) = some (some i, rest)
    simp [parseOptInt, h1, parseInt_enc i rest hrest]

end Vineyard

namespace Vineyard

theorem parseIntFieldFirst_enc (k : String) (i : Int) (rest : List Char)
    (hrest : noLeadingDigit rest = true) :
    parseIntFieldFirst k (keyChars k ++ (encInt i ++ rest)) = some (i, rest) := by
  unfold parseIntFieldFirst
  rw [parseKey_self, Option.some_bind]
  exact parseInt_enc i rest hrest

theorem parseIntField_enc (k : String) (i : Int) (rest : List Char)
    (hrest : noLeadingDigit rest = true) :
    parseIntField k (',' :: (keyChars k ++ (encInt i ++ rest))) = some (i, rest) := by
  unfold parseIntField
  rw [expectChar_self, Option.some_bind, parseKey_self, Option.some_bind]
  exact parseInt_enc i rest hrest

theorem parseStringField_enc (k s : String) (rest : List Char) :
    parseStringField k (',' :: (keyChars k ++ (encString s ++ rest))) = some (s, rest) := by
  unfold parseStringField
  rw [expectChar_self, Option.some_bind, parseKey_self, Option.some_bind]
  exact parseString_enc s rest

theorem parseBoolField_enc (k : String) (b : Bool) (rest : List Char) :
    parseBoolField k (',' :: (keyChars k ++ (encBool b ++ rest))) = some (b, rest) := by
  unfold parseBoolField
  rw [expectChar_self, Option.some_bind, parseKey_self, Option.some_bind]
  exact parseBool_enc b rest

theorem parseOptStringField_enc (k : String) (o : Option String) (rest : List Char) :
    parseOptStringField k (',' :: (keyChars k ++ (encOptString o ++ rest))) = some (o, rest) := by
  unfold parseOptStringField
  rw [expectChar_self, Option.some_bind, parseKey_self, Option.some_bind]
  exact parseOptString_enc o rest

theorem parseOptIntField_enc (k : String) (o : Option Int) (rest : List Char)
    (hrest : noLeadingDigit rest = true) :
    parseOptIntField k (',' :: (keyChars k ++ (encOptInt o ++ rest))) = some (o, rest) := by
  unfold parseOptIntField
  rw [expectChar_self, Option.some_bind, parseKey_self, Option.some_bind]
  exact parseOptInt_enc o rest hrest

theorem noLeadingDigit_comma (r : List Char) : noLeadingDigit (',' :: r) = true := rfl

theorem noLeadingDigit_rbrace (r : List Char) : noLeadingDigit ('\x7d' :: r) = true := rfl

theorem parsePunishment_enc (p : Punishment) (rest : List Char) :
    parsePunishment (encPunishment p ++ rest) = some (p, rest) := by
  simp only [encPunishment, List.cons_append, List.append_assoc, List.nil_append]
  unfold parsePunishment
  simp only [expectChar_self, Option.some_bind, noLeadingDigit_comma, noLeadingDigit_rbrace,
    parseIntFieldFirst_enc, parseStringField_enc, parseIntField_enc, parseOptStringField_enc,
    parseOptIntField_enc]

theorem parseListAux_enc (p : List Char → Option (α × List Char)) (enc : α → List Char)
    (l : List α) (hne : l ≠ []) :
    ∀ (fuel : Nat), l.length ≤ fuel →
      (∀ x ∈ l, ∀ r, p (enc x ++ r) = some (x, r)) →
      ∀ rest, parseListAux p fuel (encListSep enc l ++ ']' :: rest) = some (l, ']' :: rest) := by
  induction l with
  | nil => exact absurd rfl hne
  | cons x l ih =>
    intro fuel hfuel hp rest
    cases fuel with
    | zero => simp at hfuel
    | succ fuel =>
      cases l with
      | nil =>
        show parseListAux p (fuel + 1) (enc x ++ ']' :: rest) = some ([x], ']' :: rest)
        simp [parseListAux, hp x (by simp) (']' :: rest)]
      | cons y l' =>
        show parseListAux p (fuel + 1)
          ((enc x ++ ',' :: encListSep enc (y :: l')) ++ ']' :: rest) =
          some (x :: y :: l', ']' :: rest)
        rw [List.append_assoc, List.cons_append]
        have hrec := ih (by simp) fuel (by simpa using Nat.le_of_succ_le_succ hfuel)
          (fun z hz r => hp z (by simp [hz]) r) rest
        simp [parseListAux, hp x (by simp), hrec]

theorem parseList_enc (p : List Char → Option (α × List Char)) (enc : α → List Char)
    (l : List α) (fuel : Nat) (hfuel : l.length ≤ fuel)
    (hp : ∀ x ∈ l, ∀ r, p (enc x ++ r) = some (x, r))
    (hhead : ∀ x ∈ l, ∃ t, enc x = '\x7b' :: t) (rest : List Char) :
    parseList p fuel (encList enc l ++ rest) = some (l, rest) := by
  cases l with
  | nil =>
    show parseList p fuel ('[' :: (']' :: rest)) = some ([], rest)
    simp [parseList]
  | cons x l' =>
    obtain ⟨t, ht⟩ := hhead x (by simp)
    have hsep : ∃ u, encListSep enc (x :: l') = '\x7b' :: u := by
      cases l' with
      | nil => exact ⟨t, by simp [encListSep, ht]⟩
      | cons y l'' => exact ⟨t ++ ',' :: encListSep enc (y :: l''), by simp [encListSep, ht]⟩
    obtain ⟨u, hu⟩ := hsep
    have hlaux := parseListAux_enc p enc (x :: l') (by simp) fuel hfuel hp rest
    show parseList p fuel ('[' :: ((encListSep enc (x :: l') ++ [']']) ++ rest)) =
      some (x :: l', rest)
    rw [List.append_assoc, List.singleton_append, hu, List.cons_append]
    rw [hu, List.cons_append] at hlaux
    simp [parseList, hlaux, expectChar_self]

end Vineyard

namespace Vineyard

theorem parsePunishmentsField_enc (k : String) (ps : List Punishment) (fuel : Nat)
    (hfuel : ps.length ≤ fuel) (rest : List Char) :
    parsePunishmentsField k fuel
      (',' :: (keyChars k ++ (encList encPunishment ps ++ rest))) = some (ps, rest) := by
  unfold parsePunishmentsField
  rw [expectChar_self, Option.some_bind, parseKey_self, Option.some_bind]
  exact parseList_enc parsePunishment encPunishment ps fuel hfuel
    (fun p _ r => parsePunishment_enc p r) (fun p _ => ⟨_, rfl⟩) rest

theorem parseUser_enc (u : User) (fuel : Nat) (hfuel : u.punishments.length ≤ fuel)
    (rest : List Char) : parseUser fuel (encUser u ++ rest) = some (u, rest) := by
  have hpuns := parsePunishmentsField_enc "punishments" u.punishments fuel hfuel ('\x7d' :: rest)
  simp only [encUser, List.cons_append, List.append_assoc, List.nil_append]
  unfold parseUser
  simp only [expectChar_self, Option.some_bind, noLeadingDigit_comma, noLeadingDigit_rbrace,
    parseIntFieldFirst_enc, parseStringField_enc, parseBoolField_enc, hpuns]

theorem length_le_encListSep (enc : α → List Char) (l : List α)
    (h : ∀ x ∈ l, 1 ≤ (enc x).length) : l.length ≤ (encListSep enc l).length := by
  induction l with
  | nil => simp [encListSep]
  | cons x l ih =>
    cases l with
    | nil => simpa [encListSep] using h x (by simp)
    | cons y l' =>
      have h1 := h x (by simp)
      have h2 := ih (fun z hz => h z (by simp [hz]))
      simp only [encListSep, List.length_append, List.length_cons] at h2 ⊢
      omega

theorem length_le_mem_encListSep (enc : α → List Char) (l : List α) (x : α) (hx : x ∈ l) :
    (enc x).length ≤ (encListSep enc l).length := by
  induction l with
  | nil => cases hx
  | cons y l ih =>
    cases l with
    | nil =>
      rw [List.mem_singleton] at hx
      subst hx
      simp [encListSep]
    | cons z l' =>
      rcases List.mem_cons.mp hx with rfl | hx'
      · simp only [encListSep, List.length_append, List.length_cons]
        omega
      · have h2 := ih hx'
        simp only [encListSep, List.length_append, List.length_cons] at h2 ⊢
        omega

theorem encPunishment_length_pos (p : Punishment) : 1 ≤ (encPunishment p).length := by
  simp only [encPunishment, List.length_cons]
  omega

theorem encUser_length_pos (u : User) : 1 ≤ (encUser u).length := by
  simp only [encUser, List.length_cons]
  omega

theorem punishments_length_le_encUser (u : User) :
    u.punishments.length ≤ (encUser u).length := by
  have h0 := length_le_encListSep encPunishment u.punishments
    (fun p _ => encPunishment_length_pos p)
  have h1 : u.punishments.length ≤ (encList encPunishment u.punishments).length := by
    simp only [encList, List.length_cons, List.length_append]
    omega
  simp only [encUser, List.length_cons, List.length_append]
  omega

theorem user_fuel_bound (us : List User) (u : User) (hu : u ∈ us) :
    u.punishments.length ≤ (encList encUser us).length := by
  have h1 := punishments_length_le_encUser u
  have h2 := length_le_mem_encListSep encUser us u hu
  simp only [encList, List.length_cons, List.length_append]
  omega

theorem users_fuel_bound (us : List User) : us.length ≤ (encList encUser us).length := by
  have h0 := length_le_encListSep encUser us (fun u _ => encUser_length_pos u)
  simp only [encList, List.length_cons, List.length_append]
  omega

theorem parseUsersValue_stringify (v : Option (List User)) :
    parseUsersValue (stringifyUsersValue v) = some v := by
  cases v with
  | none => rfl
  | some us =>
    have hne : stringifyUsersValue (some us) ≠ "null" := by
      intro h
      have hd := congrArg String.data h
      rw [show (stringifyUsersValue (some us)).data = encList encUser us from rfl] at hd
      rw [show ("null" : String).data = ['n', 'u', 'l', 'l'] from rfl] at hd
      rw [show encList encUser us = '[' :: (encListSep encUser us ++ [']']) from rfl] at hd
      injection hd with h1 h2
      exact absurd h1 (by decide)
    unfold parseUsersValue
    rw [if_neg hne]
    have hdata : (stringifyUsersValue (some us)).data = encList encUser us := rfl
    have hlen : (stringifyUsersValue (some us)).length = (encList encUser us).length := rfl
    rw [hdata, hlen]
    have hp : ∀ u ∈ us, ∀ r,
        parseUser (encList encUser us).length (encUser u ++ r) = some (u, r) :=
      fun u hu r => parseUser_enc u _ (user_fuel_bound us u hu) r
    have hmain := parseList_enc (parseUser (encList encUser us).length) encUser us
      (encList encUser us).length (users_fuel_bound us) hp (fun u _ => ⟨_, rfl⟩) []
    rw [List.append_nil] at hmain
    rw [hmain]

end Vineyard

/-- C10: every value written to the `users` store is persisted under the
localStorage key `"users"` as its `JSON.stringify` text; re-initializing
the store from `JSON.parse(localStorage.getItem("users"))` yields the
written value back; and on a storage where the key was never written the
store initializes to `null` — not to an empty list. -/
theorem C10_users_localStorage_roundtrip (st : Vineyard.UsersStoreState)
    (v : Option (List Vineyard.User)) :
    Vineyard.getItem (Vineyard.usersSet st v).storage "users" =
      some (Vineyard.stringifyUsersValue v)
    ∧ Vineyard.usersInit (Vineyard.usersSet st v).storage = some v
    ∧ Vineyard.usersInit ([] : Vineyard.Storage) = some none
    ∧ Vineyard.usersInit ([] : Vineyard.Storage) ≠
        some (some ([] : List Vineyard.User)) := by
  have h1 : Vineyard.getItem (Vineyard.usersSet st v).storage "users" =
      some (Vineyard.stringifyUsersValue v) := by
    simp [Vineyard.usersSet, Vineyard.setItem, Vineyard.getItem, List.find?]
  refine ⟨h1, ?_, rfl, by simp [Vineyard.usersInit, Vineyard.getItem]⟩
  unfold Vineyard.usersInit
  rw [h1]
  exact Vineyard.parseUsersValue_stringify v
